import Mathlib

/-!
Shallow embedding of the RAG pipeline of this repository
(chunking service, embedding service, RAG orchestration service, and the
CSV delimiter detection of the file parser service), together with proofs
about the claims of the specification.

Modelling conventions:
* JavaScript strings are modelled as `List Char` (`Str`); all string
  helpers used by the code (`split`, `trim`, `slice`, …) are re-implemented
  structurally so that every definition evaluates inside the kernel.
* JavaScript numbers are modelled exactly: sizes and counts as `ℕ`,
  fractional arithmetic (average line length, cost estimates, vector
  entries) as `ℚ`; `Math.sqrt` in the cosine similarity is modelled on `ℝ`.
* Network and database effects are modelled by explicit oracles: a fetch
  oracle mapping the global chunk position to the response of the
  embedding provider, and an insert oracle mapping a batch ordinal to an
  optional error.  Wall-clock time (`Date.now()`) is outside the model and
  the corresponding stat fields are fixed to `0`.
* Loops of the form `for (i = 0; i < n; i += k)` over slices are modelled
  by first cutting the list into consecutive batches (`toBatches`) and
  folding/mapping over them, which is the same iteration order.
-/

namespace Gems

/-- JavaScript strings as character lists. -/
abbrev Str := List Char

/-- Coerce a Lean string literal into the model's string type. -/
def str (s : String) : Str := s.data

/-- Decidable equality for `Except` results (componentwise). -/
instance {ε α : Type} [DecidableEq ε] [DecidableEq α] : DecidableEq (Except ε α) := fun a b =>
  match a, b with
  | .error e₁, .error e₂ =>
    if h : e₁ = e₂ then .isTrue (by rw [h])
    else .isFalse (by intro hc; cases hc; exact h rfl)
  | .error _, .ok _ => .isFalse (by intro hc; cases hc)
  | .ok _, .error _ => .isFalse (by intro hc; cases hc)
  | .ok a₁, .ok a₂ =>
    if h : a₁ = a₂ then .isTrue (by rw [h])
    else .isFalse (by intro hc; cases hc; exact h rfl)

/-- Characters treated as whitespace by JavaScript's `trim` and `\s`
(ASCII fragment: space, tab, LF, CR, VT, FF). -/
def isJsWs (c : Char) : Bool :=
  c == ' ' || c == '\t' || c == '\n' || c == '\r' || c == '\x0b' || c == '\x0c'

/-- JavaScript `String.prototype.trim`. -/
def jsTrim (s : Str) : Str :=
  ((s.dropWhile isJsWs).reverse.dropWhile isJsWs).reverse

/-- JavaScript `s.split(c)` for a single-character separator. -/
def splitChar (sep : Char) : Str → List Str
  | [] => [[]]
  | c :: cs =>
    let r := splitChar sep cs
    if c = sep then [] :: r
    else
      match r with
      | [] => [[c]]
      | h :: t => (c :: h) :: t

/-- Auxiliary for `splitSeq`; `fuel ≥ s.length` makes the fuel-out branch
unreachable (each step consumes at least one character). -/
def splitSeqAux (sep : Str) : ℕ → Str → Str → List Str
  | _, acc, [] => [acc.reverse]
  | 0, acc, s => [acc.reverse ++ s]
  | fuel + 1, acc, c :: rest =>
    if sep.isPrefixOf (c :: rest) then
      acc.reverse :: splitSeqAux sep fuel [] ((c :: rest).drop sep.length)
    else
      splitSeqAux sep fuel (c :: acc) rest

/-- JavaScript `s.split(sep)` for a non-empty string separator. -/
def splitSeq (sep s : Str) : List Str := splitSeqAux sep s.length [] s

/-- Auxiliary for `splitCount`; same fuel convention as `splitSeqAux`. -/
def countOccAux (sep : Str) : ℕ → Str → ℕ
  | _, [] => 0
  | 0, _ => 0
  | fuel + 1, c :: rest =>
    if sep.isPrefixOf (c :: rest) then
      1 + countOccAux sep fuel ((c :: rest).drop sep.length)
    else
      countOccAux sep fuel rest

/-- `(s.split(sep)).length` for a non-empty separator, i.e. the number of
non-overlapping occurrences of `sep` plus one. -/
def splitCount (sep s : Str) : ℕ := countOccAux sep s.length s + 1

/-- Index of the last `'\n'` in a list, if any. -/
def lastNewlinePos : Str → Option ℕ
  | [] => none
  | c :: cs =>
    match lastNewlinePos cs with
    | some k => some (k + 1)
    | none => if c = '\n' then some 0 else none

/-- If the regex `\n\s*\n` (as used by `content.split(/\n\s*\n/)`) matches a
prefix of `cs`, return the length of the (greedy) match. -/
def parSepLen (cs : Str) : Option ℕ :=
  match cs with
  | '\n' :: rest =>
    let pre := rest.takeWhile isJsWs
    match lastNewlinePos pre with
    | some k => some (k + 2)
    | none => none
  | _ => none

/-- Auxiliary for `splitParagraphs`; same fuel convention as `splitSeqAux`. -/
def splitParagraphsAux : ℕ → Str → Str → List Str
  | _, acc, [] => [acc.reverse]
  | 0, acc, s => [acc.reverse ++ s]
  | fuel + 1, acc, c :: rest =>
    match parSepLen (c :: rest) with
    | some n => acc.reverse :: splitParagraphsAux fuel [] ((c :: rest).drop n)
    | none => splitParagraphsAux fuel (c :: acc) rest

/-- JavaScript `content.split(/\n\s*\n/)`. -/
def splitParagraphs (content : Str) : List Str :=
  splitParagraphsAux content.length [] content

/-- Decimal rendering of a natural number, as a model string. -/
def natToStr (n : ℕ) : Str := (Nat.repr n).data

/-- Cut a list into consecutive batches of `k` elements (the slices taken by
`for (i = 0; i < n; i += k) slice(i, i + k)`).  Fuel convention: with
`0 < k` and `fuel ≥ l.length` the fuel-out branch is unreachable. -/
def toBatches (k : ℕ) : ℕ → List α → List (List α)
  | _, [] => []
  | 0, l => [l]
  | fuel + 1, l@(_ :: _) => l.take k :: toBatches k fuel (l.drop k)

/-! ### Data model (`src/types/rag.types.ts`) -/

/-- Metadata carried by every chunk.  The source field `section` is called
`sectionLabel` here because `section` is a Lean keyword. -/
structure ChunkMetadata where
  chunk_index : ℕ
  source_file : Str
  file_type : Str
  sectionLabel : Option Str := none
  page_number : Option ℕ := none
  line_start : Option ℕ := none
  line_end : Option ℕ := none
  tokens : ℕ
deriving DecidableEq, Repr

/-- A chunk produced by the chunking service. -/
structure ChunkData where
  content : Str
  metadata : ChunkMetadata
deriving DecidableEq, Repr

/-- Chunking configuration. -/
structure ChunkingConfig where
  chunkSize : ℕ
  chunkOverlap : ℕ
  respectSentences : Bool
  respectParagraphs : Bool
  minChunkSize : ℕ
deriving DecidableEq, Repr

/-- `DEFAULT_CHUNKING_CONFIG`. -/
def DEFAULT_CHUNKING_CONFIG : ChunkingConfig :=
  { chunkSize := 1000
    chunkOverlap := 200
    respectSentences := true
    respectParagraphs := true
    minChunkSize := 100 }

/-- An embedding provider entry. -/
structure EmbeddingProvider where
  name : Str
  model : Str
  dimensions : ℕ
  maxTokens : ℕ
  costPer1KTokens : ℚ
deriving DecidableEq, Repr

/-- The keys of the provider registry (`keyof typeof EMBEDDING_PROVIDERS`):
the registry holds exactly one entry. -/
inductive ProviderKey
  | geminiEmbedding004
deriving DecidableEq, Repr

/-- `EMBEDDING_PROVIDERS` (0.00001 = 1/100000, taken exactly). -/
def EMBEDDING_PROVIDERS : ProviderKey → EmbeddingProvider
  | .geminiEmbedding004 =>
    { name := str "Google Gemini"
      model := str "text-embedding-004"
      dimensions := 768
      maxTokens := 2048
      costPer1KTokens := 1 / 100000 }

/-- Result statistics of an indexing run. -/
structure IndexingStats where
  total_chunks : ℕ
  total_embeddings : ℕ
  total_tokens : ℕ
  processing_time_ms : ℕ
  cost_estimate : ℚ
  errors : List Str
deriving DecidableEq, Repr

/-- RAG configuration. -/
structure RAGConfig where
  embeddingProvider : ProviderKey
  chunkingConfig : ChunkingConfig
  similarityThreshold : ℚ
  maxMatches : ℕ
  includeMetadata : Bool
deriving DecidableEq, Repr

/-- `DEFAULT_RAG_CONFIG`. -/
def DEFAULT_RAG_CONFIG : RAGConfig :=
  { embeddingProvider := .geminiEmbedding004
    chunkingConfig := DEFAULT_CHUNKING_CONFIG
    similarityThreshold := 7 / 10
    maxMatches := 5
    includeMetadata := true }

/-! ### Chunking service (`src/lib/chunkingService.ts`) -/

namespace ChunkingService

/-- `estimateTokens`: `Math.ceil(text.length / 4)`. -/
def estimateTokens (text : Str) : ℕ := (text.length + 3) / 4

/-- `countLines`: `text.split('\n').length`. -/
def countLines (text : Str) : ℕ := (splitChar '\n' text).length

/-- First index `i` with `text[i] ∈ {. ! ?}` and `text[i+1]` whitespace,
i.e. `text.search(/[.!?]\s/)` (as `Option` instead of `-1`). -/
def searchSentenceEnd : Str → Option ℕ
  | [] => none
  | [_] => none
  | a :: b :: rest =>
    if (a = '.' ∨ a = '!' ∨ a = '?') ∧ isJsWs b then some 0
    else (searchSentenceEnd (b :: rest)).map (· + 1)

/-- `getOverlap`.  `text.slice(-overlapSize)` is the whole string when
`overlapSize = 0` (JavaScript `slice(-0) = slice(0)`), otherwise the last
`overlapSize` characters; the branch is only reached when
`overlapSize < text.length`. -/
def getOverlap (text : Str) (overlapSize : ℕ) : Str :=
  if text.length ≤ overlapSize then text
  else
    let lastPart := if overlapSize = 0 then text else text.drop (text.length - overlapSize)
    match searchSentenceEnd lastPart with
    | some i => if 0 < i then lastPart.drop (i + 2) else lastPart
    | none => lastPart

/-- Loop state of `chunkText`: the chunks pushed so far, the running chunk,
and the start offset used for the section label. -/
structure TextState where
  chunks : List ChunkData
  currentChunk : Str
  chunkStart : ℕ
deriving DecidableEq, Repr

/-- The chunk pushed by `chunkText` for a given loop state. -/
def mkTextChunk (content fileName : Str) (st : TextState) : ChunkData :=
  { content := jsTrim st.currentChunk
    metadata :=
      { chunk_index := st.chunks.length
        source_file := fileName
        file_type := str "txt"
        sectionLabel := some (str "Caractères " ++ natToStr st.chunkStart ++ str "-"
          ++ natToStr (st.chunkStart + st.currentChunk.length))
        line_start := some (countLines (content.take st.chunkStart))
        line_end := some (countLines (content.take (st.chunkStart + st.currentChunk.length)))
        tokens := estimateTokens st.currentChunk } }

/-- One iteration of the paragraph loop of `chunkText`. -/
def chunkTextStep (content fileName : Str) (config : ChunkingConfig)
    (st : TextState) (paragraph : Str) : TextState :=
  let trimmedParagraph := jsTrim paragraph
  if trimmedParagraph = [] then st
  else
    let st1 :=
      if config.chunkSize < st.currentChunk.length + trimmedParagraph.length ∧
          0 < st.currentChunk.length then
        let chunks1 :=
          if config.minChunkSize ≤ st.currentChunk.length then
            st.chunks ++ [mkTextChunk content fileName st]
          else st.chunks
        let overlapText := getOverlap st.currentChunk config.chunkOverlap
        { chunks := chunks1
          currentChunk := overlapText
          chunkStart := st.chunkStart + st.currentChunk.length - overlapText.length }
      else st
    { st1 with currentChunk :=
        st1.currentChunk ++ (if st1.currentChunk ≠ [] then str "\n\n" else []) ++ trimmedParagraph }

/-- `chunkText`: accumulate blank-line-separated paragraphs, then flush the
final chunk when its trimmed length reaches `minChunkSize`. -/
def chunkText (content fileName : Str) (config : ChunkingConfig) : List ChunkData :=
  let paragraphs := splitParagraphs content
  let st := paragraphs.foldl (chunkTextStep content fileName config) ⟨[], [], 0⟩
  if config.minChunkSize ≤ (jsTrim st.currentChunk).length then
    st.chunks ++ [mkTextChunk content fileName st]
  else st.chunks

/-- `chunkCSV`.  The data-line slices of the `for (i = 1; …; i += linesPerChunk)`
loop are the consecutive `linesPerChunk`-batches of `lines.slice(1)`; each
iteration pushes exactly one chunk, so `chunk_index` is the batch index.
The guard `lines.length === 0` of the source is kept even though
`split` never returns an empty array. -/
def chunkCSV (csvContent fileName : Str) (config : ChunkingConfig) : List ChunkData :=
  let lines := splitChar '\n' csvContent
  if lines.length = 0 then []
  else
    let headers := lines.headD []
    -- `Math.floor(config.chunkSize / avgLineLength)` with
    -- `avgLineLength = csvContent.length / lines.length`: in exact arithmetic
    -- this is `⌊chunkSize · lines.length / csvContent.length⌋`, i.e. natural
    -- division (`lines.length ≥ 1` always; `csvContent.length = 0` forces
    -- `lines = [""]`, in which case the data loop below is empty either way).
    let linesPerChunk : ℕ := max (config.chunkSize * lines.length / csvContent.length) 5
    (toBatches linesPerChunk lines.length (lines.drop 1)).enum.map fun p =>
      let i := 1 + p.1 * linesPerChunk
      let chunkContent := headers ++ str "\n" ++ List.intercalate (str "\n") p.2
      { content := chunkContent
        metadata :=
          { chunk_index := p.1
            source_file := fileName
            file_type := str "csv"
            sectionLabel := some (str "Lignes " ++ natToStr i ++ str "-"
              ++ natToStr (min (i + linesPerChunk - 1) (lines.length - 1)))
            line_start := some i
            line_end := some (min (i + linesPerChunk - 1) (lines.length - 1))
            tokens := estimateTokens chunkContent } }

/-- Outcome of `JSON.parse` + `Array.isArray` on the raw text, with the
host serializer applied where the code applies it.  `JSON.parse` and
`JSON.stringify` are platform primitives, not code of this repository, so
they enter the model as an oracle: `array items` gives the parsed
top-level array, `object pretty` gives `JSON.stringify(data, null, 2)` of a
parsed non-array value, `failure` represents a parse exception. -/
inductive JsonParse (α : Type)
  | failure
  | array (items : List α)
  | object (pretty : Str)

/-- `chunkJSON`, parameterized by the `JSON.parse` oracle and by the
serializer `JSON.stringify(group, null, 2)` for groups of array items. -/
def chunkJSON {α : Type} (parse : Str → JsonParse α) (stringifyGroup : List α → Str)
    (jsonContent fileName : Str) (config : ChunkingConfig) : List ChunkData :=
  match parse jsonContent with
  | .failure => chunkText jsonContent fileName config
  | .object pretty => chunkText pretty fileName config
  | .array items =>
    -- `Math.floor(config.chunkSize / (jsonContent.length / data.length))`:
    -- in exact arithmetic `⌊chunkSize · data.length / jsonContent.length⌋`,
    -- i.e. natural division (an empty array yields 0, then `max … 1 = 1`,
    -- matching the source where the quotient is 0 as well).
    let itemsPerChunk : ℕ :=
      max (config.chunkSize * items.length / jsonContent.length) 1
    (toBatches itemsPerChunk items.length items).enum.map fun p =>
      let i := p.1 * itemsPerChunk
      let chunkContent := stringifyGroup p.2
      { content := chunkContent
        metadata :=
          { chunk_index := p.1
            source_file := fileName
            file_type := str "json"
            sectionLabel := some (str "Items " ++ natToStr i ++ str "-"
              ++ natToStr (min (i + itemsPerChunk - 1) (items.length - 1)))
            tokens := estimateTokens chunkContent } }

/-- `chunkPDF`: the PDF text is already extracted, delegate to `chunkText`. -/
def chunkPDF (pdfContent fileName : Str) (config : ChunkingConfig) : List ChunkData :=
  chunkText pdfContent fileName config

/-- JavaScript `toLowerCase` (ASCII). -/
def jsToLower (s : Str) : Str := s.map Char.toLower

/-- `chunkContent`: dispatch on the lowercased file type. -/
def chunkContent {α : Type} (parse : Str → JsonParse α) (stringifyGroup : List α → Str)
    (content fileType fileName : Str) (config : ChunkingConfig) : List ChunkData :=
  let ft := jsToLower fileType
  if ft = str "csv" then chunkCSV content fileName config
  else if ft = str "json" then chunkJSON parse stringifyGroup content fileName config
  else if ft = str "pdf" then chunkPDF content fileName config
  else if ft = str "txt" then chunkText content fileName config
  else chunkText content fileName config

end ChunkingService

/-! ### File parser service (`src/lib/fileParserService.ts`), CSV path -/

namespace FileParserService

/-- The candidate separators of `parseCSV`, exactly as written in the
source: `[',', ';', '\\t']` — the third entry is the literal two-character
sequence backslash + `t`, not the tab character. -/
def csvSeparators : List Str := [str ",", str ";", str "\\t"]

/-- The delimiter-detection loop of `parseCSV`: start from `','` with
`maxColumns = 0` and keep the first candidate whose column count on the
header line strictly exceeds the running maximum. -/
def bestSeparator (headerLine : Str) : Str :=
  (csvSeparators.foldl
    (fun acc sep =>
      let columns := splitCount sep headerLine
      if acc.2 < columns then (sep, columns) else acc)
    (str ",", 0)).1

/-- The line list of `parseCSV`: `text.split('\\n')` (again the literal
two-character sequence) filtered to lines with non-empty trim. -/
def parseCSVLines (text : Str) : List Str :=
  (splitSeq (str "\\n") text).filter (fun l => !(jsTrim l).isEmpty)

/-- Modelled from the spec: "detect the delimiter among a small candidate
set (comma, semicolon, tab) by picking whichever yields the most columns on
the header line" — the same selection loop, but with the candidate set the
spec describes, in which the third entry is the actual tab character. -/
def specClaimedBestDelimiter (headerLine : Str) : Str :=
  ([str ",", str ";", str "\t"].foldl
    (fun acc sep =>
      let columns := splitCount sep headerLine
      if acc.2 < columns then (sep, columns) else acc)
    (str ",", 0)).1

end FileParserService

/-! ### Embedding service (`src/lib/embeddingService.ts`) -/

namespace EmbeddingService

/-- Body of a Gemini response: either a well-formed embedding or anything
that fails the `data.embedding?.values` check. -/
inductive GeminiBody
  | embedding (values : List ℚ)
  | malformed
deriving DecidableEq

/-- Outcome of one `fetch` to the embedding endpoint: a 2xx response with a
body, or a non-2xx/transport failure carrying the status and the message
extracted from the error body (`errorData.error?.message || errorData.error`). -/
inductive FetchResult
  | ok (body : GeminiBody)
  | httpError (status : ℕ) (message : Str)
deriving DecidableEq

/-- The fetch oracle: the response received for the chunk at a given global
position of the run. -/
abbrev Net := ℕ → FetchResult

/-- `isProviderConfigured`. -/
def isProviderConfigured (geminiApiKey : Option Str) (providerKey : ProviderKey) : Bool :=
  if (EMBEDDING_PROVIDERS providerKey).name = str "Google Gemini" then geminiApiKey.isSome
  else false

/-- `generateGeminiBatch`: one request per chunk, in order; the first
failing request (non-2xx or malformed body) throws and aborts the whole
batch.  `pos` is the global position of the first chunk of the batch. -/
def generateGeminiBatch (net : Net) : ℕ → List ChunkData → Except Str (List (List ℚ))
  | _, [] => .ok []
  | pos, _ :: rest =>
    match net pos with
    | .httpError status message =>
      .error (str "API Gemini: " ++ natToStr status ++ str " - " ++ message)
    | .ok .malformed => .error (str "Format de réponse invalide de l\x27API Gemini")
    | .ok (.embedding v) =>
      match generateGeminiBatch net (pos + 1) rest with
      | .error e => .error e
      | .ok vs => .ok (v :: vs)

/-- `generateBatch`: dispatch on the provider name; a non-Gemini provider
throws (the throw is caught by the batch loop like any other failure). -/
def generateBatch (net : Net) (provider : EmbeddingProvider) (pos : ℕ)
    (chunks : List ChunkData) : Except Str (List (List ℚ)) :=
  if provider.name = str "Google Gemini" then generateGeminiBatch net pos chunks
  else .error (str "Provider non supporté: " ++ provider.name ++ str ". Seul Gemini est supporté.")

/-- The batch loop of `generateEmbeddings`, over the consecutive
100-chunk batches, starting at global position `pos`.  Returns
`(embeddings, totalTokens, errors)`:
* a successful batch appends its vectors and adds its chunks' token
  estimates to `totalTokens`;
* a failed batch appends one zero vector of the provider's dimensionality
  per chunk and pushes `` `Erreur batch ${n}: ${error}` `` (the template
  renders the thrown `Error` as `Error: <message>`), without touching
  `totalTokens`. -/
def embedBatches (net : Net) (provider : EmbeddingProvider) :
    ℕ → List (List ChunkData) → List (List ℚ) × ℕ × List Str
  | _, [] => ([], 0, [])
  | pos, b :: bs =>
    let r := embedBatches net provider (pos + 100) bs
    match generateBatch net provider pos b with
    | .ok vs => (vs ++ r.1, (b.map (fun c => c.metadata.tokens)).sum + r.2.1, r.2.2)
    | .error e =>
      (List.replicate b.length (List.replicate provider.dimensions 0) ++ r.1, r.2.1,
        (str "Erreur batch " ++ natToStr (pos / 100 + 1) ++ str ": Error: " ++ e) :: r.2.2)

/-- Result of `generateEmbeddings`. -/
structure GenerateResult where
  embeddings : List (List ℚ)
  stats : IndexingStats
deriving DecidableEq, Repr

/-- `generateEmbeddings`: throw if the provider is not configured, then
process the chunks in batches of 100 and report the stats.
`processing_time_ms` (wall clock) is outside the model and fixed to 0. -/
def generateEmbeddings (net : Net) (chunks : List ChunkData)
    (providerKey : ProviderKey) (geminiApiKey : Option Str) : Except Str GenerateResult :=
  let provider := EMBEDDING_PROVIDERS providerKey
  if !isProviderConfigured geminiApiKey providerKey then
    .error (str "Clé API " ++ provider.name ++ str " non configurée")
  else
    let r := embedBatches net provider 0 (toBatches 100 chunks.length chunks)
    .ok { embeddings := r.1
          stats :=
            { total_chunks := chunks.length
              total_embeddings := r.1.length
              total_tokens := r.2.1
              processing_time_ms := 0
              cost_estimate := (r.2.1 : ℚ) / 1000 * provider.costPer1KTokens
              errors := r.2.2 } }

open Classical in
/-- `cosineSimilarity`, with JavaScript numbers idealized as exact reals:
`none` models the dimension-mismatch throw; a zero norm yields `0`. -/
noncomputable def cosineSimilarity (vecA vecB : List ℝ) : Option ℝ :=
  if vecA.length ≠ vecB.length then none
  else
    let dotProduct := ((vecA.zip vecB).map fun p => p.1 * p.2).sum
    let normA := Real.sqrt ((vecA.map fun x => x * x).sum)
    let normB := Real.sqrt ((vecB.map fun x => x * x).sum)
    if normA = 0 ∨ normB = 0 then some 0
    else some (dotProduct / (normA * normB))

end EmbeddingService

/-! ### RAG service (`src/lib/ragService.ts`) -/

namespace RAGService

/-- A row of the `embeddings` store. -/
structure EmbeddingRecord where
  gem_id : Str
  dataset_id : Str
  content : Str
  metadata : ChunkMetadata
  embedding : List ℚ
deriving DecidableEq, Repr

/-- The insert oracle: the error returned by the store for a given batch
ordinal (`none` = the batch inserts fine). -/
abbrev Ins := ℕ → Option Str

/-- The insertion loop of `indexDataset` over the consecutive 50-record
batches starting at record offset `pos`.  Returns
`(insertedCount, errors, insertedRecords)`; a failing batch pushes
`` `Erreur insertion batch ${n}: ${error.message}` `` and inserts nothing,
and the loop continues with the remaining batches either way.  The store
content (`insertedRecords`) is made explicit so that theorems can speak
about what was actually inserted. -/
def insertBatches (ins : Ins) : ℕ → List (List EmbeddingRecord) → ℕ × List Str × List EmbeddingRecord
  | _, [] => (0, [], [])
  | pos, b :: bs =>
    let r := insertBatches ins (pos + 50) bs
    match ins (pos / 50 + 1) with
    | some m =>
      (r.1, (str "Erreur insertion batch " ++ natToStr (pos / 50 + 1) ++ str ": " ++ m) :: r.2.1,
        r.2.2)
    | none => (b.length + r.1, r.2.1, b ++ r.2.2)

/-- The Embedding records built by `indexDataset` (pairing each chunk with
its vector by position). -/
def indexRecords (gemId datasetId : Str) (chunks : List ChunkData)
    (embeddings : List (List ℚ)) : List EmbeddingRecord :=
  (chunks.zip embeddings).map fun p =>
    { gem_id := gemId
      dataset_id := datasetId
      content := p.1.content
      metadata := p.1.metadata
      embedding := p.2 }

/-- `indexDataset`: chunk, embed, build records, bulk-insert in batches of
50.  Returns the final stats together with the records actually inserted
into the store. -/
def indexDataset {α : Type} (parse : Str → ChunkingService.JsonParse α)
    (stringifyGroup : List α → Str) (net : EmbeddingService.Net) (ins : Ins)
    (gemId datasetId content fileName fileType : Str) (config : RAGConfig)
    (geminiApiKey : Option Str) : Except Str (IndexingStats × List EmbeddingRecord) :=
  let chunks := ChunkingService.chunkContent parse stringifyGroup content fileType fileName
    config.chunkingConfig
  if chunks.length = 0 then .error (str "Aucun chunk généré à partir du contenu")
  else
    match EmbeddingService.generateEmbeddings net chunks config.embeddingProvider geminiApiKey with
    | .error e => .error e
    | .ok g =>
      if g.embeddings.length ≠ chunks.length then
        .error (str "Nombre d\x27embeddings (" ++ natToStr g.embeddings.length
          ++ str ") != nombre de chunks (" ++ natToStr chunks.length ++ str ")")
      else
        let embeddingRecords := indexRecords gemId datasetId chunks g.embeddings
        let r := insertBatches ins 0 (toBatches 50 embeddingRecords.length embeddingRecords)
        .ok ({ g.stats with total_embeddings := r.1, errors := g.stats.errors ++ r.2.1 }, r.2.2)

/-- A row returned by the `match_embeddings` similarity query.  The stored
metadata is arbitrary JSON in the database, so it is optional here; an
absent or empty `source_file` triggers the same fallback (`||`). -/
structure SimilarityMatch where
  id : Str
  content : Str
  metadata : Option ChunkMetadata
  similarity : ℚ
deriving DecidableEq, Repr

/-- Result of `searchSimilar`.  The source field `matches` is called
`matchRows` here because `matches` is a Lean keyword. -/
structure RAGSearchResult where
  matchRows : List SimilarityMatch
  query : Str
  threshold : ℚ
  total_matches : ℕ
deriving DecidableEq, Repr

/-- Stats of `searchForAI` (`query_time_ms` is wall clock, fixed to 0). -/
structure RAGSearchStats where
  query_time_ms : ℕ
  total_embeddings_searched : ℕ
  matches_found : ℕ
  similarity_scores : List ℚ
deriving DecidableEq, Repr

/-- `searchSimilar`, with the query-embedding call and the store's rpc as
oracles (`rpc` may return a null row set, modelled by `none`). -/
def searchSimilar (queryEmbed : Except Str (List ℚ))
    (rpc : List ℚ → Except Str (Option (List SimilarityMatch)))
    (query : Str) (config : RAGConfig) : Except Str RAGSearchResult :=
  match queryEmbed with
  | .error e => .error e
  | .ok qe =>
    match rpc qe with
    | .error e => .error (str "Erreur recherche: " ++ e)
    | .ok rows =>
      let ms := rows.getD []
      .ok { matchRows := ms
            query := query
            threshold := config.similarityThreshold
            total_matches := ms.length }

/-- The `"[Source N] <content>"` block for the match at 0-based rank `p.1`. -/
def contextBlock (p : ℕ × SimilarityMatch) : Str :=
  str "[Source " ++ natToStr (p.1 + 1) ++ str "] " ++ p.2.content

/-- The `"Source N: <sourceFile>[ (<section>)]"` line for the match at
0-based rank `p.1`. -/
def sourceLine (p : ℕ × SimilarityMatch) : Str :=
  let sourceFile :=
    match p.2.metadata with
    | none => str "Fichier inconnu"
    | some md => if md.source_file = [] then str "Fichier inconnu" else md.source_file
  let sectionText :=
    match p.2.metadata with
    | none => []
    | some md => md.sectionLabel.getD []
  str "Source " ++ natToStr (p.1 + 1) ++ str ": " ++ sourceFile ++
    (if sectionText ≠ [] then str " (" ++ sectionText ++ str ")" else [])

/-- Result of `searchForAI`. -/
structure SearchForAIResult where
  context : Str
  sources : List Str
  searchResult : RAGSearchResult
  stats : RAGSearchStats
deriving DecidableEq, Repr

/-- `searchForAI`: run `searchSimilar`, then assemble the context and the
source citations from the ranked matches. -/
def searchForAI (queryEmbed : Except Str (List ℚ))
    (rpc : List ℚ → Except Str (Option (List SimilarityMatch)))
    (query : Str) (config : RAGConfig) : Except Str SearchForAIResult :=
  match searchSimilar queryEmbed rpc query config with
  | .error e => .error e
  | .ok searchResult =>
    .ok { context := List.intercalate (str "\n\n") (searchResult.matchRows.enum.map contextBlock)
          sources := searchResult.matchRows.enum.map sourceLine
          searchResult := searchResult
          stats :=
            { query_time_ms := 0
              total_embeddings_searched := searchResult.total_matches
              matches_found := searchResult.matchRows.length
              similarity_scores := searchResult.matchRows.map (fun m => m.similarity) } }

end RAGService

/-! ### Concrete instances used by witnesses and counterexamples -/

/-- The zero placeholder vector of the Gemini provider. -/
def zeroVec768 : List ℚ := List.replicate 768 0

/-- A sample chunk (token estimate 4). -/
def cW : ChunkData :=
  { content := str "abcd"
    metadata := { chunk_index := 0, source_file := str "t.txt", file_type := str "txt", tokens := 4 } }

/-- A fetch oracle that always answers with the embedding `[2]`. -/
def netOkW : EmbeddingService.Net := fun _ => .ok (.embedding [2])

/-- Expected result of `generateEmbeddings netOkW [cW]`. -/
def rW : EmbeddingService.GenerateResult :=
  { embeddings := [[2]]
    stats :=
      { total_chunks := 1
        total_embeddings := 1
        total_tokens := 4
        processing_time_ms := 0
        cost_estimate :=
          ((4 : ℕ) : ℚ) / 1000 * (EMBEDDING_PROVIDERS .geminiEmbedding004).costPer1KTokens
        errors := [] } }

/-- A fetch oracle failing exactly at global position 1 (the second chunk). -/
def net2 : EmbeddingService.Net := fun i =>
  if i = 1 then .httpError 500 (str "boom") else .ok (.embedding [1])

/-- A fetch oracle that always fails. -/
def net4 : EmbeddingService.Net := fun _ => .httpError 500 (str "down")

/-- Chunking configuration of the free-text counterexample for the token
estimate: small chunk size, overlap window of 8. -/
def cfg8 : ChunkingConfig :=
  { chunkSize := 15, chunkOverlap := 8, respectSentences := true, respectParagraphs := true
    minChunkSize := 1 }

/-- Free-text input whose second chunk starts with the whitespace carried in
by the overlap tail, making the stored token estimate differ from the
estimate of the trimmed content. -/
def content8 : Str := str "abcdefx.  tail\n\nzw"

/-- Chunking configuration of the free-text witness. -/
def cfg3 : ChunkingConfig :=
  { chunkSize := 10, chunkOverlap := 2, respectSentences := true, respectParagraphs := true
    minChunkSize := 2 }

/-- The single chunk produced by `chunkText "abc"` under `cfg3`. -/
def chunkAbc : ChunkData :=
  { content := str "abc"
    metadata :=
      { chunk_index := 0, source_file := str "f", file_type := str "txt"
        sectionLabel := some (str "Caractères 0-3")
        line_start := some 1, line_end := some 1, tokens := 1 } }

/-- A trivial `JSON.parse` oracle: parsing always throws. -/
def parseFail : Str → ChunkingService.JsonParse Unit := fun _ => .failure

/-- A trivial serializer for the trivial parse oracle. -/
def stringifyW : List Unit → Str := fun _ => []

/-- RAG configuration of the indexing witness. -/
def ragW6 : RAGConfig :=
  { embeddingProvider := .geminiEmbedding004
    chunkingConfig :=
      { chunkSize := 100, chunkOverlap := 10, respectSentences := true, respectParagraphs := true
        minChunkSize := 2 }
    similarityThreshold := 7 / 10
    maxMatches := 5
    includeMetadata := true }

/-- A fetch oracle that always answers with the embedding `[3]`. -/
def netW6 : EmbeddingService.Net := fun _ => .ok (.embedding [3])

/-- An insert oracle without failures. -/
def insOkW : RAGService.Ins := fun _ => none

/-- The record inserted by the indexing witness run. -/
def recordW6 : RAGService.EmbeddingRecord :=
  { gem_id := str "g"
    dataset_id := str "d"
    content := str "abcde"
    metadata :=
      { chunk_index := 0, source_file := str "f.txt", file_type := str "txt"
        sectionLabel := some (str "Caractères 0-5")
        line_start := some 1, line_end := some 1, tokens := 2 }
    embedding := [3] }

/-- The stats returned by the indexing witness run. -/
def statsW6 : IndexingStats :=
  { total_chunks := 1
    total_embeddings := 1
    total_tokens := 2
    processing_time_ms := 0
    cost_estimate :=
      ((2 : ℕ) : ℚ) / 1000 * (EMBEDDING_PROVIDERS .geminiEmbedding004).costPer1KTokens
    errors := [] }

/-- Expected embedding result of the indexing witness run. -/
def gW6 : EmbeddingService.GenerateResult :=
  { embeddings := [[3]]
    stats :=
      { total_chunks := 1
        total_embeddings := 1
        total_tokens := 2
        processing_time_ms := 0
        cost_estimate :=
          ((2 : ℕ) : ℚ) / 1000 * (EMBEDDING_PROVIDERS .geminiEmbedding004).costPer1KTokens
        errors := [] } }

/-- Expected result of `searchForAI` with zero matches. -/
def resultW7 : RAGService.SearchForAIResult :=
  { context := []
    sources := []
    searchResult :=
      { matchRows := [], query := str "q", threshold := DEFAULT_RAG_CONFIG.similarityThreshold
        total_matches := 0 }
    stats :=
      { query_time_ms := 0, total_embeddings_searched := 0, matches_found := 0
        similarity_scores := [] } }

/-! ### Specification predicates -/

/-- A chunk of the free-text strategy is well-formed for C3/C8: its content
is the trim of an accumulated raw string, its token estimate was computed on
that raw string, and the raw string (or the trimmed content, for the final
flush) reaches the `minChunkSize` floor. -/
def textChunkOk (cfg : ChunkingConfig) (c : ChunkData) : Prop :=
  ∃ raw : Str, c.content = jsTrim raw ∧
    c.metadata.tokens = ChunkingService.estimateTokens raw ∧
    (cfg.minChunkSize ≤ raw.length ∨ cfg.minChunkSize ≤ c.content.length)

/-- The chunk at position `i` carries `chunk_index = i`. -/
def indexedChunks (cs : List ChunkData) : Prop :=
  ∀ (i : ℕ) (c : ChunkData), cs[i]? = some c → c.metadata.chunk_index = i

/-- The fetch at position `i` delivers a well-formed embedding. -/
def netOkAt (net : EmbeddingService.Net) (i : ℕ) : Bool :=
  match net i with
  | .ok (.embedding _) => true
  | _ => false

/-- Every request of the batch starting at global position `pos` delivers a
well-formed embedding. -/
def batchOk (net : EmbeddingService.Net) : ℕ → List ChunkData → Bool
  | _, [] => true
  | pos, _ :: rest => netOkAt net pos && batchOk net (pos + 1) rest

/-! ## Helper lemmas -/

/-- The pointwise products of two vectors are symmetric. -/
theorem dotSum_comm (a b : List ℝ) :
    ((a.zip b).map fun p => p.1 * p.2).sum = ((b.zip a).map fun p => p.1 * p.2).sum := by
  induction a generalizing b with
  | nil => cases b <;> simp
  | cons x xs ih => cases b with
    | nil => simp
    | cons y ys => simp [ih ys, mul_comm]

/-- Appending one chunk whose index is the current length preserves
`indexedChunks`. -/
theorem indexedChunks_append (cs : List ChunkData) (c : ChunkData) (h : indexedChunks cs)
    (hc : c.metadata.chunk_index = cs.length) : indexedChunks (cs ++ [c]) := by
  intro i x hx
  rw [List.getElem?_append] at hx
  by_cases hi : i < cs.length
  · rw [if_pos hi] at hx
    exact h i x hx
  · rw [if_neg hi] at hx
    have hieq : i - cs.length = 0 := by
      rcases Nat.lt_or_ge (i - cs.length) 1 with hlt | hge
      · omega
      · rw [List.getElem?_eq_none (by simpa using hge)] at hx
        cases hx
    rw [hieq] at hx
    simp only [List.getElem?_cons_zero] at hx
    cases hx
    omega

/-- One step of the paragraph loop preserves the C3/C8 invariants. -/
theorem chunkTextStep_ok (content fileName : Str) (cfg : ChunkingConfig) (st : ChunkingService.TextState)
    (p : Str) (h1 : ∀ c ∈ st.chunks, textChunkOk cfg c) (h2 : indexedChunks st.chunks) :
    (∀ c ∈ (ChunkingService.chunkTextStep content fileName cfg st p).chunks, textChunkOk cfg c) ∧
      indexedChunks (ChunkingService.chunkTextStep content fileName cfg st p).chunks := by
  by_cases htrim : jsTrim p = []
  · simp only [ChunkingService.chunkTextStep, if_pos htrim]
    exact ⟨h1, h2⟩
  · by_cases hcond : cfg.chunkSize < st.currentChunk.length + (jsTrim p).length ∧
      0 < st.currentChunk.length
    · by_cases hmin : cfg.minChunkSize ≤ st.currentChunk.length
      · simp only [ChunkingService.chunkTextStep, if_neg htrim, if_pos hcond, if_pos hmin]
        refine ⟨?_, indexedChunks_append _ _ h2 rfl⟩
        intro c hc
        rcases List.mem_append.mp hc with hc | hc
        · exact h1 c hc
        · rcases List.mem_singleton.mp hc with rfl
          exact ⟨st.currentChunk, rfl, rfl, Or.inl hmin⟩
      · simp only [ChunkingService.chunkTextStep, if_neg htrim, if_pos hcond, if_neg hmin]
        exact ⟨h1, h2⟩
    · simp only [ChunkingService.chunkTextStep, if_neg htrim, if_neg hcond]
      exact ⟨h1, h2⟩

/-- The whole paragraph fold preserves the C3/C8 invariants. -/
theorem foldl_chunkTextStep_ok (content fileName : Str) (cfg : ChunkingConfig) :
    ∀ (ps : List Str) (st : ChunkingService.TextState),
      (∀ c ∈ st.chunks, textChunkOk cfg c) → indexedChunks st.chunks →
      (∀ c ∈ (ps.foldl (ChunkingService.chunkTextStep content fileName cfg) st).chunks,
          textChunkOk cfg c) ∧
        indexedChunks (ps.foldl (ChunkingService.chunkTextStep content fileName cfg) st).chunks := by
  intro ps
  induction ps with
  | nil => exact fun st h1 h2 => ⟨h1, h2⟩
  | cons p ps ih =>
    intro st h1 h2
    have h := chunkTextStep_ok content fileName cfg st p h1 h2
    exact ih _ h.1 h.2

/-- Every chunk of the free-text strategy satisfies the C3/C8 invariants. -/
theorem chunkText_ok (content fileName : Str) (cfg : ChunkingConfig) :
    (∀ c ∈ ChunkingService.chunkText content fileName cfg, textChunkOk cfg c) ∧
      indexedChunks (ChunkingService.chunkText content fileName cfg) := by
  have h := foldl_chunkTextStep_ok content fileName cfg (splitParagraphs content) ⟨[], [], 0⟩
    (by intro c hc; cases hc) (by intro i c hc; cases hc)
  by_cases hg : cfg.minChunkSize ≤
    (jsTrim ((splitParagraphs content).foldl (ChunkingService.chunkTextStep content fileName cfg)
      ⟨[], [], 0⟩).currentChunk).length
  · simp only [ChunkingService.chunkText, if_pos hg]
    refine ⟨?_, indexedChunks_append _ _ h.2 rfl⟩
    intro c hc
    rcases List.mem_append.mp hc with hc | hc
    · exact h.1 c hc
    · rcases List.mem_singleton.mp hc with rfl
      exact ⟨_, rfl, rfl, Or.inr hg⟩
  · simp only [ChunkingService.chunkText, if_neg hg]
    exact h

/-- Every chunk of the tabular strategy has its token estimate computed on
its own content, and the chunk indices enumerate the list. -/
theorem chunkCSV_ok (csvContent fileName : Str) (cfg : ChunkingConfig) :
    (∀ c ∈ ChunkingService.chunkCSV csvContent fileName cfg,
        c.metadata.tokens = ChunkingService.estimateTokens c.content) ∧
      indexedChunks (ChunkingService.chunkCSV csvContent fileName cfg) := by
  by_cases h0 : (splitChar '\n' csvContent).length = 0
  · simp only [ChunkingService.chunkCSV, if_pos h0]
    constructor
    · intro c hc
      cases hc
    · intro i c hc
      cases hc
  · simp only [ChunkingService.chunkCSV, if_neg h0]
    constructor
    · intro c hc
      obtain ⟨p, _, rfl⟩ := List.mem_map.mp hc
      rfl
    · intro i c hci
      rw [List.getElem?_map, List.getElem?_enum] at hci
      cases hb : (toBatches _ _ _)[i]? with
      | none => rw [hb] at hci; cases hci
      | some b =>
        rw [hb] at hci
        cases hci
        rfl

/-- Every chunk of the structured-record strategy has its token estimate
computed either on its own content (array grouping) or on the raw string of
the free-text fallback, and the chunk indices enumerate the list. -/
theorem chunkJSON_ok {α : Type} (parse : Str → ChunkingService.JsonParse α)
    (stringifyGroup : List α → Str) (jsonContent fileName : Str) (cfg : ChunkingConfig) :
    (∀ c ∈ ChunkingService.chunkJSON parse stringifyGroup jsonContent fileName cfg,
        ∃ raw : Str, c.metadata.tokens = ChunkingService.estimateTokens raw ∧
          (c.content = raw ∨ c.content = jsTrim raw)) ∧
      indexedChunks (ChunkingService.chunkJSON parse stringifyGroup jsonContent fileName cfg) := by
  cases hp : parse jsonContent with
  | failure =>
    simp only [ChunkingService.chunkJSON, hp]
    refine ⟨fun c hc => ?_, (chunkText_ok _ _ _).2⟩
    obtain ⟨raw, hcnt, htok, _⟩ := (chunkText_ok jsonContent fileName cfg).1 c hc
    exact ⟨raw, htok, Or.inr hcnt⟩
  | object pretty =>
    simp only [ChunkingService.chunkJSON, hp]
    refine ⟨fun c hc => ?_, (chunkText_ok _ _ _).2⟩
    obtain ⟨raw, hcnt, htok, _⟩ := (chunkText_ok pretty fileName cfg).1 c hc
    exact ⟨raw, htok, Or.inr hcnt⟩
  | array items =>
    simp only [ChunkingService.chunkJSON, hp]
    constructor
    · intro c hc
      obtain ⟨p, _, rfl⟩ := List.mem_map.mp hc
      exact ⟨_, rfl, Or.inl rfl⟩
    · intro i c hci
      rw [List.getElem?_map, List.getElem?_enum] at hci
      cases hb : (toBatches _ _ _)[i]? with
      | none => rw [hb] at hci; cases hci
      | some b =>
        rw [hb] at hci
        cases hci
        rfl

/-- Every chunk of `chunkContent` (any strategy) has a raw string behind its
token estimate, and the chunk indices enumerate the list. -/
theorem chunkContent_ok {α : Type} (parse : Str → ChunkingService.JsonParse α)
    (stringifyGroup : List α → Str) (content fileType fileName : Str) (cfg : ChunkingConfig) :
    (∀ c ∈ ChunkingService.chunkContent parse stringifyGroup content fileType fileName cfg,
        ∃ raw : Str, c.metadata.tokens = ChunkingService.estimateTokens raw ∧
          (c.content = raw ∨ c.content = jsTrim raw)) ∧
      indexedChunks (ChunkingService.chunkContent parse stringifyGroup content fileType fileName cfg) := by
  have htext : ∀ (cont fn : Str),
      (∀ c ∈ ChunkingService.chunkText cont fn cfg,
        ∃ raw : Str, c.metadata.tokens = ChunkingService.estimateTokens raw ∧
          (c.content = raw ∨ c.content = jsTrim raw)) ∧
      indexedChunks (ChunkingService.chunkText cont fn cfg) := by
    intro cont fn
    refine ⟨fun c hc => ?_, (chunkText_ok cont fn cfg).2⟩
    obtain ⟨raw, hcnt, htok, _⟩ := (chunkText_ok cont fn cfg).1 c hc
    exact ⟨raw, htok, Or.inr hcnt⟩
  by_cases hcsv : ChunkingService.jsToLower fileType = str "csv"
  · simp only [ChunkingService.chunkContent, if_pos hcsv]
    refine ⟨fun c hc => ?_, (chunkCSV_ok content fileName cfg).2⟩
    have h := (chunkCSV_ok content fileName cfg).1 c hc
    exact ⟨c.content, h, Or.inl rfl⟩
  · by_cases hjson : ChunkingService.jsToLower fileType = str "json"
    · simp only [ChunkingService.chunkContent, if_neg hcsv, if_pos hjson]
      exact chunkJSON_ok parse stringifyGroup content fileName cfg
    · by_cases hpdf : ChunkingService.jsToLower fileType = str "pdf"
      · simp only [ChunkingService.chunkContent, if_neg hcsv, if_neg hjson, if_pos hpdf]
        exact htext content fileName
      · by_cases htxt : ChunkingService.jsToLower fileType = str "txt"
        · simp only [ChunkingService.chunkContent, if_neg hcsv, if_neg hjson, if_neg hpdf,
            if_pos htxt]
          exact htext content fileName
        · simp only [ChunkingService.chunkContent, if_neg hcsv, if_neg hjson, if_neg hpdf,
            if_neg htxt]
          exact htext content fileName

/-- A successful Gemini batch returns one vector per chunk. -/
theorem geminiBatch_ok_length (net : EmbeddingService.Net) :
    ∀ (chunks : List ChunkData) (pos : ℕ) (vs : List (List ℚ)),
      EmbeddingService.generateGeminiBatch net pos chunks = .ok vs → vs.length = chunks.length := by
  intro chunks
  induction chunks with
  | nil =>
    intro pos vs h
    simp only [EmbeddingService.generateGeminiBatch] at h
    cases h
    rfl
  | cons c rest ih =>
    intro pos vs h
    simp only [EmbeddingService.generateGeminiBatch] at h
    cases hn : net pos with
    | httpError s m => rw [hn] at h; cases h
    | ok body =>
      cases body with
      | malformed => rw [hn] at h; cases h
      | embedding v =>
        rw [hn] at h
        cases hr : EmbeddingService.generateGeminiBatch net (pos + 1) rest with
        | error e => rw [hr] at h; cases h
        | ok vs' =>
          rw [hr] at h
          cases h
          simp [ih (pos + 1) vs' hr]

/-- In a successful Gemini batch, the vector at offset `j` is the embedding
the provider returned for the request at global position `pos + j`. -/
theorem geminiBatch_ok_get (net : EmbeddingService.Net) :
    ∀ (chunks : List ChunkData) (pos : ℕ) (vs : List (List ℚ)),
      EmbeddingService.generateGeminiBatch net pos chunks = .ok vs →
      ∀ (j : ℕ) (v : List ℚ), vs[j]? = some v → net (pos + j) = .ok (.embedding v) := by
  intro chunks
  induction chunks with
  | nil =>
    intro pos vs h j v hj
    simp only [EmbeddingService.generateGeminiBatch] at h
    cases h
    cases hj
  | cons c rest ih =>
    intro pos vs h j v hj
    simp only [EmbeddingService.generateGeminiBatch] at h
    cases hn : net pos with
    | httpError s m => rw [hn] at h; cases h
    | ok body =>
      cases body with
      | malformed => rw [hn] at h; cases h
      | embedding w =>
        rw [hn] at h
        cases hr : EmbeddingService.generateGeminiBatch net (pos + 1) rest with
        | error e => rw [hr] at h; cases h
        | ok vs' =>
          rw [hr] at h
          cases h
          cases j with
          | zero =>
            simp only [List.getElem?_cons_zero] at hj
            cases hj
            simpa using hn
          | succ j' =>
            simp only [List.getElem?_cons_succ] at hj
            have := ih (pos + 1) vs' hr j' v hj
            rwa [show pos + 1 + j' = pos + (j' + 1) by omega] at this

/-- A successful Gemini batch means every request of the batch succeeded. -/
theorem gemini_ok_batchOk (net : EmbeddingService.Net) :
    ∀ (chunks : List ChunkData) (pos : ℕ) (vs : List (List ℚ)),
      EmbeddingService.generateGeminiBatch net pos chunks = .ok vs →
      batchOk net pos chunks = true := by
  intro chunks
  induction chunks with
  | nil => intro pos vs _; rfl
  | cons c rest ih =>
    intro pos vs h
    simp only [EmbeddingService.generateGeminiBatch] at h
    cases hn : net pos with
    | httpError s m => rw [hn] at h; cases h
    | ok body =>
      cases body with
      | malformed => rw [hn] at h; cases h
      | embedding w =>
        rw [hn] at h
        cases hr : EmbeddingService.generateGeminiBatch net (pos + 1) rest with
        | error e => rw [hr] at h; cases h
        | ok vs' =>
          simp [batchOk, netOkAt, hn, ih (pos + 1) vs' hr]

/-- A failed Gemini batch means some request of the batch failed. -/
theorem gemini_error_batchOk (net : EmbeddingService.Net) :
    ∀ (chunks : List ChunkData) (pos : ℕ) (e : Str),
      EmbeddingService.generateGeminiBatch net pos chunks = .error e →
      batchOk net pos chunks = false := by
  intro chunks
  induction chunks with
  | nil =>
    intro pos e h
    simp only [EmbeddingService.generateGeminiBatch] at h
    cases h
  | cons c rest ih =>
    intro pos e h
    simp only [EmbeddingService.generateGeminiBatch] at h
    cases hn : net pos with
    | httpError s m => simp [batchOk, netOkAt, hn]
    | ok body =>
      cases body with
      | malformed => simp [batchOk, netOkAt, hn]
      | embedding w =>
        rw [hn] at h
        cases hr : EmbeddingService.generateGeminiBatch net (pos + 1) rest with
        | error e' =>
          rw [hr] at h
          cases h
          simp [batchOk, ih (pos + 1) e hr]
        | ok vs' => rw [hr] at h; cases h

/-- A successful `generateBatch` returns one vector per chunk. -/
theorem generateBatch_ok_length (net : EmbeddingService.Net) (provider : EmbeddingProvider)
    (pos : ℕ) (chunks : List ChunkData) (vs : List (List ℚ))
    (h : EmbeddingService.generateBatch net provider pos chunks = .ok vs) :
    vs.length = chunks.length := by
  unfold EmbeddingService.generateBatch at h
  split_ifs at h
  exact geminiBatch_ok_length net chunks pos vs h

/-- In a successful `generateBatch`, the vector at offset `j` is the
provider's embedding for position `pos + j`. -/
theorem generateBatch_ok_get (net : EmbeddingService.Net) (provider : EmbeddingProvider)
    (pos : ℕ) (chunks : List ChunkData) (vs : List (List ℚ))
    (h : EmbeddingService.generateBatch net provider pos chunks = .ok vs) :
    ∀ (j : ℕ) (v : List ℚ), vs[j]? = some v → net (pos + j) = .ok (.embedding v) := by
  unfold EmbeddingService.generateBatch at h
  split_ifs at h
  exact geminiBatch_ok_get net chunks pos vs h

/-- Cutting into batches preserves the total length. -/
theorem toBatches_length_sum {α : Type} (k : ℕ) (hk : 0 < k) :
    ∀ (fuel : ℕ) (l : List α), l.length ≤ fuel →
      ((toBatches k fuel l).map List.length).sum = l.length := by
  intro fuel
  induction fuel with
  | zero =>
    intro l hl
    have : l = [] := List.length_eq_zero.mp (Nat.le_zero.mp hl)
    subst this
    simp [toBatches]
  | succ fuel ih =>
    intro l hl
    cases l with
    | nil => simp [toBatches]
    | cons x xs =>
      cases k with
      | zero => omega
      | succ k' =>
        have hdrop : ((x :: xs).drop (k' + 1)).length ≤ fuel := by
          simp only [List.length_drop]
          simp only [List.length_cons] at hl ⊢
          omega
        simp only [toBatches, List.map_cons, List.sum_cons, ih _ hdrop, List.length_take,
          List.length_drop]
        simp only [List.length_cons]
        omega

/-- The embedding loop emits one vector per chunk of every batch. -/
theorem embedBatches_length (net : EmbeddingService.Net) (provider : EmbeddingProvider) :
    ∀ (bs : List (List ChunkData)) (pos : ℕ),
      (EmbeddingService.embedBatches net provider pos bs).1.length = (bs.map List.length).sum := by
  intro bs
  induction bs with
  | nil => intro pos; rfl
  | cons b rest ih =>
    intro pos
    simp only [EmbeddingService.embedBatches]
    cases hgb : EmbeddingService.generateBatch net provider pos b with
    | ok vs =>
      simp [generateBatch_ok_length net provider pos b vs hgb, ih (pos + 100)]
    | error e =>
      simp [ih (pos + 100)]

/-- Positional characterization of the embedding loop (run on the batches of
a chunk list): the vector at global position `i` is either the provider's
embedding for the request at position `pos + i`, or the zero placeholder of
the provider's dimensionality. -/
theorem embedLoop_get (net : EmbeddingService.Net) (provider : EmbeddingProvider) :
    ∀ (fuel : ℕ) (l : List ChunkData) (pos : ℕ), l.length ≤ fuel →
      ∀ (i : ℕ) (v : List ℚ),
        (EmbeddingService.embedBatches net provider pos (toBatches 100 fuel l)).1[i]? = some v →
        net (pos + i) = .ok (.embedding v) ∨ v = List.replicate provider.dimensions 0 := by
  intro fuel
  induction fuel with
  | zero =>
    intro l pos hl i v h
    have : l = [] := List.length_eq_zero.mp (Nat.le_zero.mp hl)
    subst this
    simp [toBatches, EmbeddingService.embedBatches] at h
  | succ fuel ih =>
    intro l pos hl i v h
    cases l with
    | nil => simp [toBatches, EmbeddingService.embedBatches] at h
    | cons x xs =>
      have hdrop : ((x :: xs).drop 100).length ≤ fuel := by
        simp only [List.length_drop]
        simp only [List.length_cons] at hl ⊢
        omega
      simp only [toBatches, EmbeddingService.embedBatches] at h
      cases hgb : EmbeddingService.generateBatch net provider pos ((x :: xs).take 100) with
      | ok vs =>
        rw [hgb] at h
        dsimp only at h
        rw [List.getElem?_append] at h
        by_cases hi : i < vs.length
        · rw [if_pos hi] at h
          exact Or.inl (generateBatch_ok_get net provider pos _ vs hgb i v h)
        · rw [if_neg hi] at h
          have hvs : vs.length = min 100 (x :: xs).length := by
            rw [generateBatch_ok_length net provider pos _ vs hgb, List.length_take]
          by_cases hlen : (x :: xs).length ≤ 100
          · rw [List.drop_eq_nil_of_le hlen] at h
            simp [toBatches, EmbeddingService.embedBatches] at h
          · have := ih _ (pos + 100) hdrop (i - vs.length) v h
            rcases this with hnet | hz
            · exact Or.inl (by rwa [show pos + 100 + (i - vs.length) = pos + i by omega] at hnet)
            · exact Or.inr hz
      | error e =>
        rw [hgb] at h
        dsimp only at h
        rw [List.getElem?_append] at h
        by_cases hi : i < (List.replicate ((x :: xs).take 100).length
            (List.replicate provider.dimensions (0 : ℚ))).length
        · rw [if_pos hi] at h
          rw [List.getElem?_replicate] at h
          rw [if_pos (by simpa using hi)] at h
          cases h
          exact Or.inr rfl
        · rw [if_neg hi] at h
          have hrep : (List.replicate ((x :: xs).take 100).length
              (List.replicate provider.dimensions (0 : ℚ))).length = min 100 (x :: xs).length := by
            simp only [List.length_replicate, List.length_take, List.length_cons]
          by_cases hlen : (x :: xs).length ≤ 100
          · rw [List.drop_eq_nil_of_le hlen] at h
            simp [toBatches, EmbeddingService.embedBatches] at h
          · have := ih _ (pos + 100) hdrop
              (i - (List.replicate ((x :: xs).take 100).length
                (List.replicate provider.dimensions (0 : ℚ))).length) v h
            rcases this with hnet | hz
            · refine Or.inl ?_
              rwa [show pos + 100 + (i - (List.replicate ((x :: xs).take 100).length
                (List.replicate provider.dimensions (0 : ℚ))).length) = pos + i by
                  rw [hrep]; omega] at hnet
            · exact Or.inr hz

/-- Token accounting of the embedding loop: only batches all of whose
requests succeed contribute their chunks' token estimates. -/
theorem embedBatches_tokens (net : EmbeddingService.Net) (provider : EmbeddingProvider)
    (hname : provider.name = str "Google Gemini") :
    ∀ (bs : List (List ChunkData)) (k : ℕ),
      (EmbeddingService.embedBatches net provider (100 * k) bs).2.1 =
        (((bs.enumFrom k).filter fun p => batchOk net (100 * p.1) p.2).map
          fun p => (p.2.map fun c => c.metadata.tokens).sum).sum := by
  intro bs
  induction bs with
  | nil => intro k; rfl
  | cons b rest ih =>
    intro k
    have hnext : 100 * k + 100 = 100 * (k + 1) := by ring
    simp only [EmbeddingService.embedBatches, List.enumFrom]
    cases hgb : EmbeddingService.generateBatch net provider (100 * k) b with
    | ok vs =>
      have hok : batchOk net (100 * k) b = true := by
        unfold EmbeddingService.generateBatch at hgb
        rw [if_pos hname] at hgb
        exact gemini_ok_batchOk net b (100 * k) vs hgb
      dsimp only
      rw [hnext, ih (k + 1)]
      simp [List.filter_cons, hok]
    | error e =>
      have hko : batchOk net (100 * k) b = false := by
        unfold EmbeddingService.generateBatch at hgb
        rw [if_pos hname] at hgb
        exact gemini_error_batchOk net b (100 * k) e hgb
      dsimp only
      rw [hnext, ih (k + 1)]
      simp [List.filter_cons, hko]

/-- Unfolding of a successful `generateEmbeddings` run. -/
theorem generateEmbeddings_ok_eq (net : EmbeddingService.Net) (chunks : List ChunkData)
    (providerKey : ProviderKey) (apiKey : Option Str) (r : EmbeddingService.GenerateResult)
    (h : EmbeddingService.generateEmbeddings net chunks providerKey apiKey = .ok r) :
    r.embeddings = (EmbeddingService.embedBatches net (EMBEDDING_PROVIDERS providerKey) 0
        (toBatches 100 chunks.length chunks)).1 ∧
      r.stats.total_chunks = chunks.length ∧
      r.stats.total_embeddings = r.embeddings.length ∧
      r.stats.total_tokens = (EmbeddingService.embedBatches net (EMBEDDING_PROVIDERS providerKey) 0
        (toBatches 100 chunks.length chunks)).2.1 ∧
      r.stats.cost_estimate = (r.stats.total_tokens : ℚ) / 1000 *
        (EMBEDDING_PROVIDERS providerKey).costPer1KTokens ∧
      r.stats.errors = (EmbeddingService.embedBatches net (EMBEDDING_PROVIDERS providerKey) 0
        (toBatches 100 chunks.length chunks)).2.2 := by
  unfold EmbeddingService.generateEmbeddings at h
  split_ifs at h
  cases h
  exact ⟨rfl, rfl, rfl, rfl, rfl, rfl⟩

/-! ## Claims -/

/-- C9: the Chunker is deterministic — two calls of `chunkContent` on equal
`(content, formatHint, fileName, config)` inputs (and the same host JSON
primitives) return equal chunk sequences. -/
theorem claim9_chunker_deterministic {α : Type} (parse : Str → ChunkingService.JsonParse α)
    (stringifyGroup : List α → Str) (c₁ c₂ t₁ t₂ f₁ f₂ : Str) (cfg₁ cfg₂ : ChunkingConfig)
    (hc : c₁ = c₂) (ht : t₁ = t₂) (hf : f₁ = f₂) (hcfg : cfg₁ = cfg₂) :
    ChunkingService.chunkContent parse stringifyGroup c₁ t₁ f₁ cfg₁ =
      ChunkingService.chunkContent parse stringifyGroup c₂ t₂ f₂ cfg₂ := by
  subst hc; subst ht; subst hf; subst hcfg; rfl

/-- Witness for C9 at a concrete input. -/
theorem claim9_witness :
    ChunkingService.chunkContent parseFail stringifyW (str "a") (str "txt") (str "f")
        DEFAULT_CHUNKING_CONFIG =
      ChunkingService.chunkContent parseFail stringifyW (str "a") (str "txt") (str "f")
        DEFAULT_CHUNKING_CONFIG :=
  claim9_chunker_deterministic parseFail stringifyW _ _ _ _ _ _ _ _ rfl rfl rfl rfl

/-- C10: `cosineSimilarity` is commutative on equal-length vectors. -/
theorem claim10_cosine_comm (vecA vecB : List ℝ) (h : vecA.length = vecB.length) :
    EmbeddingService.cosineSimilarity vecA vecB = EmbeddingService.cosineSimilarity vecB vecA := by
  have hA : ¬vecA.length ≠ vecB.length := by simp [h]
  have hB : ¬vecB.length ≠ vecA.length := by simp [h]
  simp only [EmbeddingService.cosineSimilarity, if_neg hA, if_neg hB]
  split_ifs with h1 h2 h3
  · rfl
  · exact absurd h1.symm h2
  · exact absurd h3.symm h1
  · rw [dotSum_comm vecA vecB, mul_comm]

/-- Witness for C10 at a concrete input. -/
theorem claim10_witness :
    EmbeddingService.cosineSimilarity [1, 2] [3, 4] =
      EmbeddingService.cosineSimilarity [3, 4] [1, 2] :=
  claim10_cosine_comm [1, 2] [3, 4] rfl

/-- C5 (counterexample): on the tab-delimited header line `a⇥b⇥c` the
spec's claimed rule detects the tab character (3 columns beat 1), but the
code's detection loop — the only delimiter detection in the repository,
living in `parseCSV`, not in the Chunker — returns `','`, because its
third candidate is the literal two-character sequence `\t`. -/
theorem claim5_counterexample :
    FileParserService.bestSeparator (str "a\tb\tc") = str "," ∧
    FileParserService.specClaimedBestDelimiter (str "a\tb\tc") = str "\t" ∧
    FileParserService.bestSeparator (str "a\tb\tc") ≠
      FileParserService.specClaimedBestDelimiter (str "a\tb\tc") := by
  decide

/-- C5 (amended): the delimiter detection of `parseCSV` picks, among the
candidates `','`, `';'` and the literal two-character sequence `\t`, a
candidate with the maximal column count on the supplied header line
(the first strictly-improving candidate wins, `','` is the default). -/
theorem claim5_amended_thm (headerLine : Str) :
    FileParserService.bestSeparator headerLine ∈ FileParserService.csvSeparators ∧
    ∀ sep ∈ FileParserService.csvSeparators,
      splitCount sep headerLine ≤ splitCount (FileParserService.bestSeparator headerLine) headerLine := by
  unfold FileParserService.bestSeparator FileParserService.csvSeparators splitCount
  simp only [List.foldl]
  split_ifs <;>
    refine ⟨by simp, ?_⟩ <;>
    · intro sep hsep
      simp only [List.mem_cons, List.not_mem_nil, or_false] at hsep
      rcases hsep with rfl | rfl | rfl <;> simp_all <;> omega

/-- Witness for C5 (amended) at a concrete input. -/
theorem claim5_witness :
    splitCount (str ";") (str "a;b;c") ≤
      splitCount (FileParserService.bestSeparator (str "a;b;c")) (str "a;b;c") :=
  (claim5_amended_thm (str "a;b;c")).2 (str ";") (by decide)

/-- C7: on success, `searchForAI` returns the context built by joining the
ranked `"[Source N] <content>"` blocks with a blank line, a parallel
`"Source N: <sourceFile>[ (<section>)]"` list of the same length as the
match list, and for zero matches the context is the empty string and the
source list is empty (not an error). -/
theorem claim7_searchForAI_context (queryEmbed : Except Str (List ℚ))
    (rpc : List ℚ → Except Str (Option (List RAGService.SimilarityMatch)))
    (query : Str) (config : RAGConfig) (r : RAGService.SearchForAIResult)
    (h : RAGService.searchForAI queryEmbed rpc query config = .ok r) :
    r.context =
      List.intercalate (str "\n\n") (r.searchResult.matchRows.enum.map RAGService.contextBlock) ∧
    r.sources = r.searchResult.matchRows.enum.map RAGService.sourceLine ∧
    r.sources.length = r.searchResult.matchRows.length ∧
    (r.searchResult.matchRows = [] → r.context = [] ∧ r.sources = []) := by
  unfold RAGService.searchForAI RAGService.searchSimilar at h
  cases hq : queryEmbed with
  | error e => rw [hq] at h; exact (Except.noConfusion h)
  | ok qe =>
    rw [hq] at h
    dsimp only at h
    cases hr : rpc qe with
    | error e => rw [hr] at h; exact (Except.noConfusion h)
    | ok rows =>
      rw [hr] at h
      dsimp only at h
      cases h
      refine ⟨rfl, rfl, by simp, fun hm => ?_⟩
      constructor
      · show List.intercalate (str "\n\n") ((rows.getD []).enum.map RAGService.contextBlock) = []
        rw [show rows.getD [] = [] from hm]
        rfl
      · show (rows.getD []).enum.map RAGService.sourceLine = []
        rw [show rows.getD [] = [] from hm]
        rfl

/-- Witness for C7: the zero-match run. -/
theorem claim7_witness :
    resultW7.context =
      List.intercalate (str "\n\n")
        (resultW7.searchResult.matchRows.enum.map RAGService.contextBlock) ∧
    resultW7.sources = resultW7.searchResult.matchRows.enum.map RAGService.sourceLine ∧
    resultW7.sources.length = resultW7.searchResult.matchRows.length ∧
    (resultW7.searchResult.matchRows = [] → resultW7.context = [] ∧ resultW7.sources = []) :=
  claim7_searchForAI_context (.ok []) (fun _ => .ok (some [])) (str "q") DEFAULT_RAG_CONFIG
    resultW7 rfl

/-- C3 (counterexample): the tabular strategy emits a chunk of length 3
(`"a" + newline + "b"`) under the default configuration whose floor is 100 —
chunks below `minChunkSize` are neither dropped nor checked there. -/
theorem claim3_counterexample :
    ((ChunkingService.chunkContent parseFail stringifyW (str "a\nb") (str "csv") (str "f.csv")
        DEFAULT_CHUNKING_CONFIG).map fun c => c.content.length) = [3] ∧
      ¬DEFAULT_CHUNKING_CONFIG.minChunkSize ≤ 3 := by
  decide

/-- C3 (amended): only the free-text strategy enforces the floor, and it
does so on the accumulated pre-trim text: every text chunk is the trim of an
accumulated string of length at least `minChunkSize`, or (for the final
flush) its trimmed content itself reaches `minChunkSize`; the tabular
strategy performs no minimum-size check at all and can emit a chunk below
the floor. -/
theorem claim3_amended_thm :
    (∀ (content fileName : Str) (cfg : ChunkingConfig),
        ∀ c ∈ ChunkingService.chunkText content fileName cfg,
          (∃ raw : Str, c.content = jsTrim raw ∧ cfg.minChunkSize ≤ raw.length) ∨
            cfg.minChunkSize ≤ c.content.length) ∧
      (∃ c ∈ ChunkingService.chunkContent parseFail stringifyW (str "a\nb") (str "csv")
          (str "f.csv") DEFAULT_CHUNKING_CONFIG,
        c.content.length < DEFAULT_CHUNKING_CONFIG.minChunkSize) := by
  constructor
  · intro content fileName cfg c hc
    obtain ⟨raw, hcnt, _, hmin⟩ := (chunkText_ok content fileName cfg).1 c hc
    rcases hmin with hmin | hmin
    · exact Or.inl ⟨raw, hcnt, hmin⟩
    · exact Or.inr hmin
  · decide

/-- Witness for C3 (amended) at a concrete input. -/
theorem claim3_witness :
    (∃ raw : Str, chunkAbc.content = jsTrim raw ∧ cfg3.minChunkSize ≤ raw.length) ∨
      cfg3.minChunkSize ≤ chunkAbc.content.length :=
  claim3_amended_thm.1 (str "abc") (str "f") cfg3 chunkAbc (by decide)

/-- C8 (counterexample): under `cfg8` the second free-text chunk of
`content8` has content of length 8 (the overlap tail's leading space was
trimmed away) but a stored token estimate of 3 = ⌈9/4⌉ computed on the
untrimmed accumulated text, while ⌈8/4⌉ = 2. -/
theorem claim8_counterexample :
    ((ChunkingService.chunkContent parseFail stringifyW content8 (str "txt") (str "f.txt")
        cfg8).map fun c => (c.metadata.tokens, c.content.length))[1]? = some (3, 8) ∧
      (3 : ℕ) ≠ (8 + 3) / 4 := by
  decide

/-- C8 (amended): under every strategy the chunk indices increase
monotonically from 0 (the chunk at position `i` carries `chunk_index = i`),
and the token estimate is `ceil(length/4)` of the raw text the chunk was
built from: the chunk's own content for tabular and structured-record
chunks, and the accumulated pre-trim text for free-text chunks (whose
stored content is its trim, so the estimate can exceed
`ceil(content.length/4)`). -/
theorem claim8_amended_thm :
    (∀ (α : Type) (parse : Str → ChunkingService.JsonParse α) (stringifyGroup : List α → Str)
        (content fileType fileName : Str) (cfg : ChunkingConfig) (i : ℕ) (c : ChunkData),
        (ChunkingService.chunkContent parse stringifyGroup content fileType fileName cfg)[i]? =
            some c →
          c.metadata.chunk_index = i) ∧
      (∀ (α : Type) (parse : Str → ChunkingService.JsonParse α) (stringifyGroup : List α → Str)
          (content fileType fileName : Str) (cfg : ChunkingConfig),
        ∀ c ∈ ChunkingService.chunkContent parse stringifyGroup content fileType fileName cfg,
          ∃ raw : Str, c.metadata.tokens = ChunkingService.estimateTokens raw ∧
            (c.content = raw ∨ c.content = jsTrim raw)) := by
  constructor
  · intro α parse stringifyGroup content fileType fileName cfg i c hc
    exact (chunkContent_ok parse stringifyGroup content fileType fileName cfg).2 i c hc
  · intro α parse stringifyGroup content fileType fileName cfg c hc
    exact (chunkContent_ok parse stringifyGroup content fileType fileName cfg).1 c hc

/-- Witness for C8 (amended) at a concrete input. -/
theorem claim8_witness :
    chunkAbc.metadata.chunk_index = 0 :=
  claim8_amended_thm.1 Unit parseFail stringifyW (str "abc") (str "txt") (str "f") cfg3 0
    chunkAbc (by decide)

/-- C1: a successful `generateEmbeddings` run returns exactly one vector
per input chunk, in input order: the vector at position `i` is either the
provider's embedding for chunk `i`, or (when chunk `i` sat in a failed
batch) the zero placeholder of the provider's dimensionality — failed
positions hold placeholders, they are never omitted. -/
theorem claim1_alignment (net : EmbeddingService.Net) (chunks : List ChunkData)
    (providerKey : ProviderKey) (apiKey : Option Str) (r : EmbeddingService.GenerateResult)
    (h : EmbeddingService.generateEmbeddings net chunks providerKey apiKey = .ok r) :
    r.embeddings.length = chunks.length ∧
      ∀ (i : ℕ) (v : List ℚ), r.embeddings[i]? = some v →
        net i = .ok (.embedding v) ∨
          v = List.replicate (EMBEDDING_PROVIDERS providerKey).dimensions 0 := by
  obtain ⟨hemb, -, -, -, -, -⟩ := generateEmbeddings_ok_eq net chunks providerKey apiKey r h
  constructor
  · rw [hemb, embedBatches_length,
      toBatches_length_sum 100 (by norm_num) chunks.length chunks (le_refl _)]
  · intro i v hv
    rw [hemb] at hv
    have := embedLoop_get net (EMBEDDING_PROVIDERS providerKey) chunks.length chunks 0
      (le_refl _) i v hv
    simpa using this

/-- Witness for C1 at a concrete input. -/
theorem claim1_witness :
    rW.embeddings.length = [cW].length ∧
      ∀ (i : ℕ) (v : List ℚ), rW.embeddings[i]? = some v →
        netOkW i = .ok (.embedding v) ∨
          v = List.replicate (EMBEDDING_PROVIDERS .geminiEmbedding004).dimensions 0 :=
  claim1_alignment netOkW [cW] .geminiEmbedding004 (some (str "k")) rW rfl

set_option maxRecDepth 10000 in
/-- C2 (counterexample): in a batch of 3 chunks where the provider fails on
item 2 only, the claim predicts that item 1 keeps its provider-returned
vector `[1]`; the code instead aborts the whole batch and stores the zero
placeholder at position 0 as well (one error is still recorded). -/
theorem claim2_counterexample :
    net2 0 = .ok (.embedding [1]) ∧
      ((EmbeddingService.generateEmbeddings net2 [cW, cW, cW] .geminiEmbedding004
          (some (str "k"))).map fun r => (r.embeddings[0]?, r.stats.errors.length)) =
        .ok (some zeroVec768, 1) ∧
      some zeroVec768 ≠ some [(1 : ℚ)] := by
  decide

set_option maxRecDepth 10000 in
/-- C2 (amended): the failure granularity is the batch, not the item — when
one request of a batch fails, every position of that batch receives the
zero placeholder of the provider's dimensionality (vectors already fetched
for the same batch are discarded), and exactly one descriptive error string
naming the batch ordinal is appended; for a batch of 3 failing on item 2:
`vectors.length = 3`, all three vectors are zero vectors,
`stats.errors.length = 1`. -/
theorem claim2_amended_thm :
    ((EmbeddingService.generateEmbeddings net2 [cW, cW, cW] .geminiEmbedding004
        (some (str "k"))).map fun r =>
          (r.embeddings, r.stats.errors, r.stats.total_embeddings, r.stats.total_tokens)) =
      .ok (List.replicate 3 zeroVec768,
        [str "Erreur batch 1: Error: API Gemini: 500 - boom"], 3, 0) := by
  decide

/-- C4 (counterexample): for a single chunk of token estimate 4 whose
request fails, the reported cost estimate is 0, not the claimed
`(sum of all token estimates / 1000) · costPer1KTokens`, which is nonzero —
failed chunks are not counted. -/
theorem claim4_counterexample :
    ((EmbeddingService.generateEmbeddings net4 [cW] .geminiEmbedding004
        (some (str "k"))).map fun r => r.stats.cost_estimate) = .ok 0 ∧
      (cW.metadata.tokens : ℚ) / 1000 *
        (EMBEDDING_PROVIDERS .geminiEmbedding004).costPer1KTokens ≠ 0 := by
  constructor
  · have h0 : ((EmbeddingService.generateEmbeddings net4 [cW] .geminiEmbedding004
        (some (str "k"))).map fun r => r.stats.cost_estimate) =
        .ok (((0 : ℕ) : ℚ) / 1000 * (EMBEDDING_PROVIDERS .geminiEmbedding004).costPer1KTokens) :=
      rfl
    rw [h0]
    norm_num
  · have : cW.metadata.tokens = 4 := rfl
    rw [this]
    simp only [EMBEDDING_PROVIDERS]
    norm_num

/-- C4 (amended): the reported cost estimate is
`(total_tokens / 1000) · costPer1KTokens` where `total_tokens` sums the
token estimates of the chunks of those batches whose requests all
succeeded; chunks of failed batches are not counted. -/
theorem claim4_amended_thm (net : EmbeddingService.Net) (chunks : List ChunkData)
    (providerKey : ProviderKey) (apiKey : Option Str) (r : EmbeddingService.GenerateResult)
    (h : EmbeddingService.generateEmbeddings net chunks providerKey apiKey = .ok r) :
    r.stats.cost_estimate = (r.stats.total_tokens : ℚ) / 1000 *
        (EMBEDDING_PROVIDERS providerKey).costPer1KTokens ∧
      r.stats.total_tokens =
        ((((toBatches 100 chunks.length chunks).enum.filter
            fun p => batchOk net (100 * p.1) p.2).map
          fun p => (p.2.map fun c => c.metadata.tokens).sum).sum) := by
  obtain ⟨-, -, -, htok, hcost, -⟩ := generateEmbeddings_ok_eq net chunks providerKey apiKey r h
  refine ⟨hcost, ?_⟩
  rw [htok]
  have hname : (EMBEDDING_PROVIDERS providerKey).name = str "Google Gemini" := by
    cases providerKey
    rfl
  have := embedBatches_tokens net (EMBEDDING_PROVIDERS providerKey) hname
    (toBatches 100 chunks.length chunks) 0
  simpa [List.enum] using this

/-- Witness for C4 (amended) at a concrete input. -/
theorem claim4_witness :
    rW.stats.cost_estimate = (rW.stats.total_tokens : ℚ) / 1000 *
        (EMBEDDING_PROVIDERS .geminiEmbedding004).costPer1KTokens ∧
      rW.stats.total_tokens =
        ((((toBatches 100 [cW].length [cW]).enum.filter
            fun p => batchOk netOkW (100 * p.1) p.2).map
          fun p => (p.2.map fun c => c.metadata.tokens).sum).sum) :=
  claim4_amended_thm netOkW [cW] .geminiEmbedding004 (some (str "k")) rW rfl

/-- The insertion loop's running count equals the number of records it
actually inserted. -/
theorem insertBatches_count (ins : RAGService.Ins) :
    ∀ (bs : List (List RAGService.EmbeddingRecord)) (pos : ℕ),
      (RAGService.insertBatches ins pos bs).1 =
        (RAGService.insertBatches ins pos bs).2.2.length := by
  intro bs
  induction bs with
  | nil => intro pos; rfl
  | cons b rest ih =>
    intro pos
    simp only [RAGService.insertBatches]
    cases hins : ins (pos / 50 + 1) with
    | some m =>
      dsimp only
      exact ih (pos + 50)
    | none =>
      dsimp only
      simp [ih (pos + 50)]

/-- The insertion loop inserts exactly the batches whose insert succeeds
(later batches are attempted even after a failure), and pushes one error
message naming the ordinal of every failing batch. -/
theorem insertBatches_spec (ins : RAGService.Ins) :
    ∀ (bs : List (List RAGService.EmbeddingRecord)) (k : ℕ),
      (RAGService.insertBatches ins (50 * k) bs).2.2 =
        (((bs.enumFrom k).filter fun p => ins (p.1 + 1) = none).map Prod.snd).flatten ∧
      (RAGService.insertBatches ins (50 * k) bs).2.1 =
        (bs.enumFrom k).filterMap fun p => (ins (p.1 + 1)).map fun m =>
          str "Erreur insertion batch " ++ natToStr (p.1 + 1) ++ str ": " ++ m := by
  intro bs
  induction bs with
  | nil => intro k; exact ⟨rfl, rfl⟩
  | cons b rest ih =>
    intro k
    have hord : 50 * k / 50 + 1 = k + 1 := by
      rw [Nat.mul_div_cancel_left k (by norm_num : (0 : ℕ) < 50)]
    have hnext : 50 * k + 50 = 50 * (k + 1) := by ring
    simp only [RAGService.insertBatches, List.enumFrom]
    rw [hord, hnext]
    cases hins : ins (k + 1) with
    | some m =>
      dsimp only
      constructor
      · rw [(ih (k + 1)).1]
        simp [List.filter_cons, hins]
      · rw [(ih (k + 1)).2]
        simp [List.filterMap_cons, hins]
    | none =>
      dsimp only
      constructor
      · rw [(ih (k + 1)).1]
        simp [List.filter_cons, hins]
      · rw [(ih (k + 1)).2]
        simp [List.filterMap_cons, hins]

/-- C6: a successful `indexDataset` run reports `total_embeddings` equal to
the number of records actually inserted into the store; the inserted
records are exactly the 50-record batches whose insert succeeded (an
insertion failure of one batch does not abort the remaining batches), and
the final error list is the embedding-run errors followed by one message
per failed insert batch, naming its ordinal. -/
theorem claim6_indexDataset {α : Type} (parse : Str → ChunkingService.JsonParse α)
    (stringifyGroup : List α → Str) (net : EmbeddingService.Net) (ins : RAGService.Ins)
    (gemId datasetId content fileName fileType : Str) (config : RAGConfig) (apiKey : Option Str)
    (stats : IndexingStats) (inserted : List RAGService.EmbeddingRecord)
    (g : EmbeddingService.GenerateResult) (records : List RAGService.EmbeddingRecord)
    (hidx : RAGService.indexDataset parse stringifyGroup net ins gemId datasetId content fileName
      fileType config apiKey = .ok (stats, inserted))
    (hg : EmbeddingService.generateEmbeddings net (ChunkingService.chunkContent parse stringifyGroup
      content fileType fileName config.chunkingConfig) config.embeddingProvider apiKey = .ok g)
    (hrecords : records = RAGService.indexRecords gemId datasetId (ChunkingService.chunkContent
      parse stringifyGroup content fileType fileName config.chunkingConfig) g.embeddings) :
    stats.total_embeddings = inserted.length ∧
      inserted = ((((toBatches 50 records.length records).enum).filter
        fun p => ins (p.1 + 1) = none).map Prod.snd).flatten ∧
      stats.errors = g.stats.errors ++
        (((toBatches 50 records.length records).enum).filterMap fun p =>
          (ins (p.1 + 1)).map fun m =>
            str "Erreur insertion batch " ++ natToStr (p.1 + 1) ++ str ": " ++ m) := by
  subst hrecords
  simp only [RAGService.indexDataset] at hidx
  split_ifs at hidx
  rw [hg] at hidx
  dsimp only at hidx
  split_ifs at hidx
  cases hidx
  refine ⟨insertBatches_count ins _ 0, ?_, ?_⟩
  · simpa [List.enum] using (insertBatches_spec ins
      (toBatches 50 (RAGService.indexRecords gemId datasetId (ChunkingService.chunkContent parse
        stringifyGroup content fileType fileName config.chunkingConfig) g.embeddings).length
        (RAGService.indexRecords gemId datasetId (ChunkingService.chunkContent parse stringifyGroup
          content fileType fileName config.chunkingConfig) g.embeddings)) 0).1
  · have := (insertBatches_spec ins
      (toBatches 50 (RAGService.indexRecords gemId datasetId (ChunkingService.chunkContent parse
        stringifyGroup content fileType fileName config.chunkingConfig) g.embeddings).length
        (RAGService.indexRecords gemId datasetId (ChunkingService.chunkContent parse stringifyGroup
          content fileType fileName config.chunkingConfig) g.embeddings)) 0).2
    simp only [List.enum]
    rw [← this]

/-- Witness for C6 at a concrete end-to-end run. -/
theorem claim6_witness :
    statsW6.total_embeddings = ([recordW6] : List RAGService.EmbeddingRecord).length :=
  (claim6_indexDataset parseFail stringifyW netW6 insOkW (str "g") (str "d") (str "abcde")
    (str "f.txt") (str "txt") ragW6 (some (str "k")) statsW6 [recordW6] gW6 [recordW6]
    rfl rfl rfl).1

end Gems
